import Mathlib

/-!
Shallow embedding of the dish-manager core (src/utils/consolidation.ts and the
validation module) and proofs of its specification claims.

Strings are modelled as `List Char`. JavaScript `String.prototype.trim` is
modelled as dropping whitespace characters from both ends, and
`String.prototype.toLowerCase` as character-wise ASCII lowercasing.
JavaScript `Map` iteration order (insertion order, `set` on an existing key
keeps its position) is modelled by an association list, and
`Array.prototype.sort` with the name comparator by insertion sort under the
lexicographic order on `List Char`.
-/

/-- Strings of the embedded program. -/
abbrev Str := List Char

/-- Model of JavaScript `s.trim()`: drop whitespace from both ends. -/
def jsTrim (s : Str) : Str :=
  ((s.dropWhile Char.isWhitespace).reverse.dropWhile Char.isWhitespace).reverse

/-- Model of JavaScript `s.toLowerCase()` (ASCII). -/
def jsToLower (s : Str) : Str :=
  s.map Char.toLower

/-- The three fixed store categories (`CategoryName` in src/types.ts). -/
inductive CategoryName
  | fruitShop
  | butchery
  | supermarket
deriving DecidableEq

/-- The registry `CATEGORIES` from src/constants.ts, in its fixed order. -/
def CATEGORIES : List CategoryName :=
  [CategoryName.fruitShop, CategoryName.butchery, CategoryName.supermarket]

/-- The display label of a category, as in src/constants.ts. -/
def categoryLabel : CategoryName → Str
  | CategoryName.fruitShop => "Fruit shop".toList
  | CategoryName.butchery => "Butchery".toList
  | CategoryName.supermarket => "Supermarket".toList

/-- The category-keyed ingredient record of a dish (`Dish.ingredients`). -/
structure Ingredients where
  fruitShop : List Str
  butchery : List Str
  supermarket : List Str
deriving DecidableEq

/-- Access `ingredients[category]`. -/
def Ingredients.get (i : Ingredients) : CategoryName → List Str
  | CategoryName.fruitShop => i.fruitShop
  | CategoryName.butchery => i.butchery
  | CategoryName.supermarket => i.supermarket

/-- The `Dish` entity of src/types.ts. -/
structure Dish where
  id : Str
  name : Str
  ingredients : Ingredients
  createdAt : Str
deriving DecidableEq

/-- The `ConsolidatedIngredient` record of src/types.ts. -/
structure ConsolidatedIngredient where
  name : Str
  count : Nat
  display : Str
deriving DecidableEq

/-- The `ConsolidatedList` record: one ingredient sequence per category. -/
structure ConsolidatedList where
  fruitShop : List ConsolidatedIngredient
  butchery : List ConsolidatedIngredient
  supermarket : List ConsolidatedIngredient
deriving DecidableEq

/-- Access `list[category]`. -/
def ConsolidatedList.get (l : ConsolidatedList) : CategoryName → List ConsolidatedIngredient
  | CategoryName.fruitShop => l.fruitShop
  | CategoryName.butchery => l.butchery
  | CategoryName.supermarket => l.supermarket

/-- `ingredient.trim().toLowerCase()` from consolidateIngredients. -/
def normalizeIngredient (s : Str) : Str :=
  jsToLower (jsTrim s)

/-- `countMap.set(normalized, (countMap.get(normalized) || 0) + 1)` on a
JavaScript `Map` modelled as an insertion-ordered association list: an
existing key keeps its position and its value is incremented, a new key is
appended with value 1. -/
def bumpCount (m : List (Str × Nat)) (k : Str) : List (Str × Nat) :=
  if m.any (fun p => p.1 == k) then
    m.map (fun p => if p.1 == k then (p.1, p.2 + 1) else p)
  else
    m ++ [(k, 1)]

/-- The body of the inner loop of consolidateIngredients: normalize one
ingredient and, when non-empty, count it. -/
def countStep (m : List (Str × Nat)) (ingredient : Str) : List (Str × Nat) :=
  let normalized := normalizeIngredient ingredient
  if normalized ≠ [] then bumpCount m normalized else m

/-- The two nested loops of consolidateIngredients for one category:
`for (const dish of dishes) for (const ingredient of dish.ingredients[category])`. -/
def categoryCountMap (dishes : List Dish) (c : CategoryName) : List (Str × Nat) :=
  dishes.foldl (fun m dish => (dish.ingredients.get c).foldl countStep m) []

/-- The display formula of consolidateIngredients:
`count === 1 ? name : name + " " + "+".repeat(count - 1)`. -/
def mkDisplay (name : Str) (count : Nat) : Str :=
  if count = 1 then name else name ++ ' ' :: List.replicate (count - 1) '+'

/-- The comparator of `.sort((a, b) => a.name.localeCompare(b.name))`,
modelled as the lexicographic order on the name strings. -/
def ciLe (a b : ConsolidatedIngredient) : Prop :=
  a.name ≤ b.name

instance : DecidableRel ciLe := fun a b => inferInstanceAs (Decidable (a.name ≤ b.name))

instance : IsTotal ConsolidatedIngredient ciLe :=
  ⟨fun a b => le_total a.name b.name⟩

instance : IsTrans ConsolidatedIngredient ciLe :=
  ⟨fun _ _ _ h h' => le_trans h h'⟩

/-- One category's result in consolidateIngredients:
`Array.from(countMap.entries()).map(...).sort(...)`. -/
def consolidateCategory (dishes : List Dish) (c : CategoryName) : List ConsolidatedIngredient :=
  List.insertionSort ciLe
    ((categoryCountMap dishes c).map
      (fun p => { name := p.1, count := p.2, display := mkDisplay p.1 p.2 }))

/-- `consolidateIngredients` from src/utils/consolidation.ts: the loop over
`CATEGORIES` filling `result[category]` yields the record with one computed
sequence per registry category. -/
def consolidateIngredients (dishes : List Dish) : ConsolidatedList :=
  { fruitShop := consolidateCategory dishes CategoryName.fruitShop
    butchery := consolidateCategory dishes CategoryName.butchery
    supermarket := consolidateCategory dishes CategoryName.supermarket }

/-- JavaScript `array.join(sep)` on strings. -/
def joinSep (sep : Str) : List Str → Str
  | [] => []
  | [s] => s
  | s :: rest => s ++ sep ++ joinSep sep rest

/-- `formatConsolidatedListForClipboard` from src/utils/consolidation.ts:
push a `"Category:\n  - item..."` block for each non-empty category in
registry order, then join the blocks with a blank line. -/
def formatConsolidatedListForClipboard (list : ConsolidatedList) : Str :=
  let sections := CATEGORIES.foldl
    (fun sections c =>
      if 0 < (list.get c).length then
        sections ++
          [categoryLabel c ++ (':' :: '\n' ::
            joinSep ['\n'] ((list.get c).map (fun ing => ' ' :: ' ' :: '-' :: ' ' :: ing.display)))]
      else sections)
    []
  joinSep ['\n', '\n'] sections

/-- The `ValidationError` record of the validation module. -/
structure ValidationError where
  field : Str
  message : Str
deriving DecidableEq

/-- `{field: "name", message: "Dish name is required"}`. -/
def nameRequiredError : ValidationError :=
  { field := "name".toList, message := "Dish name is required".toList }

/-- `{field: "name", message: "A dish with this name already exists"}`. -/
def nameExistsError : ValidationError :=
  { field := "name".toList, message := "A dish with this name already exists".toList }

/-- `{field: "ingredients", message: "At least one ingredient is required"}`. -/
def ingredientsRequiredError : ValidationError :=
  { field := "ingredients".toList, message := "At least one ingredient is required".toList }

/-- `validateDishName` from the validation module. The duplicate search is
`existingDishes.find(dish => dish.name.toLowerCase() === trimmedName.toLowerCase()
&& dish.id !== editingId)`: the stored `dish.name` is lowercased but NOT
trimmed. An absent `editingId` is `none`, and `dish.id !== editingId` is
`some dish.id ≠ editingId`. -/
def validateDishName (name : Str) (existingDishes : List Dish) (editingId : Option Str) :
    Option ValidationError :=
  let trimmedName := jsTrim name
  if trimmedName = [] then
    some nameRequiredError
  else
    match existingDishes.find?
      (fun dish => decide (jsToLower dish.name = jsToLower trimmedName) &&
        decide (some dish.id ≠ editingId)) with
    | some _ => some nameExistsError
    | none => none

/-- `validateIngredients` from the validation module:
`CATEGORIES.some(category => ingredients[category].some(ing => ing.trim() !== ""))`. -/
def validateIngredients (ingredients : Ingredients) : Option ValidationError :=
  let hasAnyIngredient := CATEGORIES.any
    (fun c => (ingredients.get c).any (fun ing => decide (jsTrim ing ≠ [])))
  if !hasAnyIngredient then
    some ingredientsRequiredError
  else
    none

/-- `validateDish` from the validation module: run both validators and push
each non-null error, name error first. -/
def validateDish (name : Str) (ingredients : Ingredients) (existingDishes : List Dish)
    (editingId : Option Str) : List ValidationError :=
  let errors : List ValidationError := []
  let errors := match validateDishName name existingDishes editingId with
    | some e => errors ++ [e]
    | none => errors
  let errors := match validateIngredients ingredients with
    | some e => errors ++ [e]
    | none => errors
  errors

example : normalizeIngredient "  ApPLe ".toList = "apple".toList := by decide

example : mkDisplay "apple".toList 3 = "apple ++".toList := by decide

/-- Lookup in the association-list model of the count map. -/
def lookupCount (m : List (Str × Nat)) (k : Str) : Option Nat :=
  (m.find? (fun p => p.1 == k)).map (fun p => p.2)

/-- The number of ingredient strings in category `c` across `dishes` whose
trimmed, lowercased form equals `t`. -/
def categoryOccurrences (dishes : List Dish) (c : CategoryName) (t : Str) : Nat :=
  (dishes.flatMap (fun d => d.ingredients.get c)).countP
    (fun i => decide (normalizeIngredient i = t))

theorem lookupCount_cons (p : Str × Nat) (m : List (Str × Nat)) (k : Str) :
    lookupCount (p :: m) k = if p.1 = k then some p.2 else lookupCount m k := by
  by_cases h : p.1 = k <;> simp [lookupCount, List.find?_cons, h]

theorem lookupCount_append_single (m : List (Str × Nat)) (k k' : Str) (v : Nat) :
    lookupCount (m ++ [(k, v)]) k' =
      ((lookupCount m k').or (if k = k' then some v else none)) := by
  unfold lookupCount
  rw [List.find?_append]
  cases hf : List.find? (fun p => p.1 == k') m with
  | none => by_cases h : k = k' <;> simp [List.find?_cons, h]
  | some q => simp

theorem lookupCount_map_bump_self (m : List (Str × Nat)) (k : Str) :
    lookupCount (m.map (fun p => if p.1 == k then (p.1, p.2 + 1) else p)) k =
      (lookupCount m k).map (fun n => n + 1) := by
  induction m with
  | nil => rfl
  | cons p m ih =>
    by_cases h : p.1 = k
    · simp [lookupCount_cons, h]
    · simpa [lookupCount_cons, h] using ih

theorem lookupCount_map_bump_other (m : List (Str × Nat)) (k k' : Str) (h : k' ≠ k) :
    lookupCount (m.map (fun p => if p.1 == k then (p.1, p.2 + 1) else p)) k' =
      lookupCount m k' := by
  induction m with
  | nil => rfl
  | cons p m ih =>
    by_cases hp : p.1 = k
    · have hkk' : k ≠ k' := fun e => h e.symm
      simpa [lookupCount_cons, hp, hkk'] using ih
    · by_cases hp' : p.1 = k'
      · simp [lookupCount_cons, hp, hp', h]
      · simpa [lookupCount_cons, hp, hp'] using ih

theorem lookupCount_isSome (m : List (Str × Nat)) (k : Str) :
    (lookupCount m k).isSome = m.any (fun p => p.1 == k) := by
  induction m with
  | nil => rfl
  | cons p m ih =>
    by_cases h : p.1 = k <;> simp [lookupCount_cons, h, List.any_cons, ih]

theorem bumpCount_lookup_self (m : List (Str × Nat)) (k : Str) :
    lookupCount (bumpCount m k) k = some ((lookupCount m k).getD 0 + 1) := by
  unfold bumpCount
  by_cases h : m.any (fun p => p.1 == k)
  · rw [if_pos h, lookupCount_map_bump_self]
    have : (lookupCount m k).isSome = true := by rw [lookupCount_isSome]; exact h
    obtain ⟨n, hn⟩ := Option.isSome_iff_exists.mp this
    simp [hn]
  · rw [if_neg h]
    have hnone : lookupCount m k = none := by
      rw [← Option.not_isSome_iff_eq_none, lookupCount_isSome]
      exact h
    simp [lookupCount_append_single, hnone]

theorem bumpCount_lookup_other (m : List (Str × Nat)) (k k' : Str) (h : k' ≠ k) :
    lookupCount (bumpCount m k) k' = lookupCount m k' := by
  unfold bumpCount
  by_cases hany : m.any (fun p => p.1 == k)
  · rw [if_pos hany, lookupCount_map_bump_other m k k' h]
  · rw [if_neg hany, lookupCount_append_single]
    have : k ≠ k' := fun e => h e.symm
    simp [this]

theorem bumpCount_keys (m : List (Str × Nat)) (k : Str) :
    (bumpCount m k).map Prod.fst =
      if m.any (fun p => p.1 == k) then m.map Prod.fst else m.map Prod.fst ++ [k] := by
  unfold bumpCount
  split
  · rw [List.map_map]
    congr 1
    funext p
    by_cases h : p.1 = k <;> simp [h]
  · simp

theorem bumpCount_keys_nodup (m : List (Str × Nat)) (k : Str)
    (h : (m.map Prod.fst).Nodup) : ((bumpCount m k).map Prod.fst).Nodup := by
  rw [bumpCount_keys]
  by_cases hany : m.any (fun p => p.1 == k)
  · rwa [if_pos hany]
  · rw [if_neg hany]
    have hk : k ∉ m.map Prod.fst := by
      intro hmem
      obtain ⟨p, hp, hpk⟩ := List.mem_map.mp hmem
      exact hany (List.any_eq_true.mpr ⟨p, hp, by simp [hpk]⟩)
    rw [List.nodup_append]
    refine ⟨h, List.nodup_singleton k, ?_⟩
    intro a ha hb
    rw [List.mem_singleton] at hb
    exact hk (hb ▸ ha)

theorem mem_iff_lookupCount (m : List (Str × Nat)) (h : (m.map Prod.fst).Nodup)
    (k : Str) (n : Nat) : (k, n) ∈ m ↔ lookupCount m k = some n := by
  induction m with
  | nil => simp [lookupCount]
  | cons p m ih =>
    rw [List.map_cons, List.nodup_cons] at h
    rw [lookupCount_cons, List.mem_cons]
    by_cases hk : p.1 = k
    · rw [if_pos hk]
      constructor
      · rintro (he | hm)
        · rw [← he]
        · exact absurd (List.mem_map.mpr ⟨(k, n), hm, rfl⟩) (hk ▸ h.1)
      · intro he
        have h2 : p.2 = n := Option.some_inj.mp he
        left
        exact Prod.ext hk.symm h2.symm
    · rw [if_neg hk]
      constructor
      · rintro (he | hm)
        · exact absurd (congrArg Prod.fst he.symm) hk
        · exact (ih h.2).mp hm
      · intro hl
        exact Or.inr ((ih h.2).mpr hl)

/-- Occurrence count of normalized key `k` in a flat list of ingredient
strings. -/
def occCount (items : List Str) (k : Str) : Nat :=
  items.countP (fun i => decide (normalizeIngredient i = k))

theorem occCount_cons (i : Str) (items : List Str) (k : Str) :
    occCount (i :: items) k =
      occCount items k + if normalizeIngredient i = k then 1 else 0 := by
  by_cases h : normalizeIngredient i = k <;> simp [occCount, List.countP_cons, h]

theorem foldl_countStep_lookup (items : List Str) (m : List (Str × Nat)) (k : Str) :
    lookupCount (items.foldl countStep m) k =
      if k = [] ∨ occCount items k = 0 then lookupCount m k
      else some ((lookupCount m k).getD 0 + occCount items k) := by
  induction items generalizing m with
  | nil => simp [occCount]
  | cons i items ih =>
    rw [List.foldl_cons, ih, occCount_cons]
    by_cases hn : normalizeIngredient i = []
    · have hstep : countStep m i = m := by simp [countStep, hn]
      by_cases hk : k = []
      · simp [hstep, hk]
      · have : ¬ normalizeIngredient i = k := fun e => hk (e ▸ hn)
        simp [hstep, this]
    · have hstep : countStep m i = bumpCount m (normalizeIngredient i) := by
        simp [countStep, hn]
      by_cases hik : normalizeIngredient i = k
      · have hk : k ≠ [] := fun e => hn (e ▸ hik)
        rw [hstep, hik]
        rw [bumpCount_lookup_self]
        by_cases hocc : occCount items k = 0
        · simp [hk, hocc]
        · have h1 : ¬(k = [] ∨ occCount items k = 0) := by
            intro h2; rcases h2 with h2 | h2
            · exact hk h2
            · exact hocc h2
          rw [if_neg h1]
          simp [hk]
          omega
      · rw [hstep, bumpCount_lookup_other m (normalizeIngredient i) k (fun e => hik e.symm)]
        simp [hik]

theorem foldl_countStep_keys_nodup (items : List Str) (m : List (Str × Nat))
    (h : (m.map Prod.fst).Nodup) :
    ((items.foldl countStep m).map Prod.fst).Nodup := by
  induction items generalizing m with
  | nil => exact h
  | cons i items ih =>
    rw [List.foldl_cons]
    refine ih _ ?_
    by_cases hn : normalizeIngredient i = []
    · simpa [countStep, hn] using h
    · have : countStep m i = bumpCount m (normalizeIngredient i) := by simp [countStep, hn]
      rw [this]
      exact bumpCount_keys_nodup m _ h

theorem categoryCountMap_eq_foldl (dishes : List Dish) (c : CategoryName) :
    categoryCountMap dishes c =
      (dishes.flatMap (fun d => d.ingredients.get c)).foldl countStep [] := by
  suffices h : ∀ init : List (Str × Nat),
      dishes.foldl (fun m dish => (dish.ingredients.get c).foldl countStep m) init =
        (dishes.flatMap (fun d => d.ingredients.get c)).foldl countStep init by
    exact h []
  induction dishes with
  | nil => intro init; rfl
  | cons d ds ih =>
    intro init
    rw [List.foldl_cons, List.flatMap_cons, List.foldl_append, ih]

theorem lookupCount_categoryCountMap (dishes : List Dish) (c : CategoryName) (k : Str) :
    lookupCount (categoryCountMap dishes c) k =
      if k = [] ∨ categoryOccurrences dishes c k = 0 then none
      else some (categoryOccurrences dishes c k) := by
  rw [categoryCountMap_eq_foldl, foldl_countStep_lookup]
  have : occCount (dishes.flatMap (fun d => d.ingredients.get c)) k =
      categoryOccurrences dishes c k := rfl
  rw [this]
  split
  · rfl
  · simp [lookupCount]

theorem categoryCountMap_keys_nodup (dishes : List Dish) (c : CategoryName) :
    ((categoryCountMap dishes c).map Prod.fst).Nodup := by
  rw [categoryCountMap_eq_foldl]
  exact foldl_countStep_keys_nodup _ [] (by simp)

theorem mem_categoryCountMap (dishes : List Dish) (c : CategoryName) (k : Str) (n : Nat) :
    (k, n) ∈ categoryCountMap dishes c ↔
      k ≠ [] ∧ 0 < categoryOccurrences dishes c k ∧ n = categoryOccurrences dishes c k := by
  rw [mem_iff_lookupCount _ (categoryCountMap_keys_nodup dishes c),
    lookupCount_categoryCountMap]
  by_cases hk : k = []
  · simp [hk]
  · by_cases hocc : categoryOccurrences dishes c k = 0
    · simp [hk, hocc]
    · simp [hk, hocc, Nat.pos_of_ne_zero hocc, eq_comm]

theorem consolidateIngredients_get (dishes : List Dish) (c : CategoryName) :
    (consolidateIngredients dishes).get c = consolidateCategory dishes c := by
  cases c <;> rfl

theorem mem_consolidateCategory (dishes : List Dish) (c : CategoryName)
    (e : ConsolidatedIngredient) :
    e ∈ consolidateCategory dishes c ↔
      (e.name, e.count) ∈ categoryCountMap dishes c ∧
        e.display = mkDisplay e.name e.count := by
  unfold consolidateCategory
  rw [(List.perm_insertionSort ciLe _).mem_iff, List.mem_map]
  constructor
  · rintro ⟨p, hp, he⟩
    rw [← he]
    exact ⟨hp, rfl⟩
  · rintro ⟨hm, hd⟩
    refine ⟨(e.name, e.count), hm, ?_⟩
    cases e
    simp_all

/-- Strict version of the name comparator. -/
def ciLt (a b : ConsolidatedIngredient) : Prop :=
  a.name < b.name

instance : IsAntisymm ConsolidatedIngredient ciLt :=
  ⟨fun _ _ h h' => absurd h' (lt_asymm h)⟩

theorem consolidateCategory_names_nodup (dishes : List Dish) (c : CategoryName) :
    ((consolidateCategory dishes c).map (fun e => e.name)).Nodup := by
  unfold consolidateCategory
  have hperm := (List.perm_insertionSort ciLe
    ((categoryCountMap dishes c).map
      (fun p => ({ name := p.1, count := p.2, display := mkDisplay p.1 p.2 } :
        ConsolidatedIngredient)))).map (fun e => e.name)
  rw [hperm.nodup_iff, List.map_map]
  exact categoryCountMap_keys_nodup dishes c

theorem consolidateCategory_pairwise_lt (dishes : List Dish) (c : CategoryName) :
    List.Pairwise ciLt (consolidateCategory dishes c) := by
  have hs : List.Pairwise ciLe (consolidateCategory dishes c) :=
    List.sorted_insertionSort ciLe _
  have hne : List.Pairwise (fun a b : ConsolidatedIngredient => a.name ≠ b.name)
      (consolidateCategory dishes c) :=
    List.pairwise_map.mp (consolidateCategory_names_nodup dishes c)
  exact (hs.and hne).imp (fun h => lt_of_le_of_ne h.1 h.2)

theorem categoryOccurrences_perm (ds1 ds2 : List Dish) (h : ds1.Perm ds2)
    (c : CategoryName) (t : Str) :
    categoryOccurrences ds1 c t = categoryOccurrences ds2 c t := by
  unfold categoryOccurrences
  have hf : ∀ ds : List Dish, ds.flatMap (fun d => d.ingredients.get c) =
      (ds.map (fun d => d.ingredients.get c)).flatten := fun _ => rfl
  rw [hf ds1, hf ds2]
  exact List.Perm.countP_eq _ ((h.map (fun d => d.ingredients.get c)).flatten)

theorem consolidateCategory_perm (ds1 ds2 : List Dish) (h : ds1.Perm ds2)
    (c : CategoryName) :
    consolidateCategory ds1 c = consolidateCategory ds2 c := by
  have hmem : ∀ e, e ∈ consolidateCategory ds1 c ↔ e ∈ consolidateCategory ds2 c := by
    intro e
    rw [mem_consolidateCategory, mem_consolidateCategory, mem_categoryCountMap,
      mem_categoryCountMap, categoryOccurrences_perm ds1 ds2 h c e.name]
  have hn1 : (consolidateCategory ds1 c).Nodup :=
    List.Nodup.of_map _ (consolidateCategory_names_nodup ds1 c)
  have hn2 : (consolidateCategory ds2 c).Nodup :=
    List.Nodup.of_map _ (consolidateCategory_names_nodup ds2 c)
  have hperm : (consolidateCategory ds1 c).Perm (consolidateCategory ds2 c) :=
    (List.perm_ext_iff_of_nodup hn1 hn2).mpr hmem
  exact List.eq_of_perm_of_sorted hperm
    (consolidateCategory_pairwise_lt ds1 c) (consolidateCategory_pairwise_lt ds2 c)

/-- A sample dish with only a Butchery ingredient. -/
def dishP : Dish :=
  { id := "1".toList, name := "Stew".toList
    ingredients := { fruitShop := [], butchery := ["Beef".toList], supermarket := [] }
    createdAt := [] }

/-- A sample dish sharing dishP's Butchery list but with the identical string
also present in other categories. -/
def dishQ : Dish :=
  { id := "2".toList, name := "Roast".toList
    ingredients :=
      { fruitShop := ["Beef".toList], butchery := ["Beef".toList]
        supermarket := ["Rice".toList] }
    createdAt := [] }

/-- Claim C1: for every dish sequence, consolidateIngredients returns, per
registry category, exactly the entries whose name is a non-empty trimmed
lowercased form of some ingredient occurrence of that category, with count
the number of such occurrences and display equal to the name followed, when
the count exceeds 1, by a space and count-1 plus signs; on the empty dish
sequence every category is the empty sequence. -/
theorem claim_C1_consolidate_characterization (dishes : List Dish) (c : CategoryName)
    (e : ConsolidatedIngredient) :
    (e ∈ (consolidateIngredients dishes).get c ↔
      e.name ≠ [] ∧ 0 < categoryOccurrences dishes c e.name ∧
      e.count = categoryOccurrences dishes c e.name ∧
      e.display = (if e.count = 1 then e.name
        else e.name ++ ' ' :: List.replicate (e.count - 1) '+')) ∧
    (consolidateIngredients []).get c = [] := by
  constructor
  · rw [consolidateIngredients_get, mem_consolidateCategory, mem_categoryCountMap]
    unfold mkDisplay
    tauto
  · cases c <;> rfl

/-- Claim C4: within each category the output of consolidateIngredients is
strictly ascending by name and contains no two entries with the same name. -/
theorem claim_C4_sorted_strictly_by_name (dishes : List Dish) (c : CategoryName) :
    List.Pairwise (fun a b : ConsolidatedIngredient => a.name < b.name)
      ((consolidateIngredients dishes).get c) ∧
    (((consolidateIngredients dishes).get c).map (fun e => e.name)).Nodup := by
  rw [consolidateIngredients_get]
  exact ⟨consolidateCategory_pairwise_lt dishes c, consolidateCategory_names_nodup dishes c⟩

/-- Claim C5: two dish sequences of equal length that agree dish by dish on
the ingredient sequences of a category produce the same output at that
category; ingredients of other categories never influence it. -/
theorem claim_C5_category_independence (ds1 ds2 : List Dish) (c : CategoryName)
    (h : ds1.map (fun d => d.ingredients.get c) = ds2.map (fun d => d.ingredients.get c)) :
    (consolidateIngredients ds1).get c = (consolidateIngredients ds2).get c := by
  rw [consolidateIngredients_get, consolidateIngredients_get]
  have hf : ∀ ds : List Dish, ds.flatMap (fun d => d.ingredients.get c) =
      (ds.map (fun d => d.ingredients.get c)).flatten := fun _ => rfl
  have hflat : ds1.flatMap (fun d => d.ingredients.get c) =
      ds2.flatMap (fun d => d.ingredients.get c) := by
    rw [hf ds1, hf ds2, h]
  unfold consolidateCategory
  rw [categoryCountMap_eq_foldl, categoryCountMap_eq_foldl, hflat]

/-- Witness for claim C5: the two singleton dish sequences agree on the
Butchery ingredients while differing elsewhere (even with the identical
string), and the Butchery outputs coincide. -/
theorem claim_C5_witness :
    [dishP].map (fun d => d.ingredients.get CategoryName.butchery) =
      [dishQ].map (fun d => d.ingredients.get CategoryName.butchery) ∧
    (consolidateIngredients [dishP]).get CategoryName.butchery =
      (consolidateIngredients [dishQ]).get CategoryName.butchery :=
  ⟨by decide, claim_C5_category_independence [dishP] [dishQ] CategoryName.butchery (by decide)⟩

/-- Claim C10: consolidateIngredients is invariant under permutation of the
input dish sequence. -/
theorem claim_C10_permutation_invariant (ds1 ds2 : List Dish) (h : ds1.Perm ds2) :
    consolidateIngredients ds1 = consolidateIngredients ds2 := by
  unfold consolidateIngredients
  rw [consolidateCategory_perm ds1 ds2 h CategoryName.fruitShop,
    consolidateCategory_perm ds1 ds2 h CategoryName.butchery,
    consolidateCategory_perm ds1 ds2 h CategoryName.supermarket]

/-- Witness for claim C10: swapping two concrete dishes leaves the
consolidated list unchanged. -/
theorem claim_C10_witness :
    ([dishP, dishQ] : List Dish).Perm [dishQ, dishP] ∧
      consolidateIngredients [dishP, dishQ] = consolidateIngredients [dishQ, dishP] :=
  ⟨by decide, claim_C10_permutation_invariant [dishP, dishQ] [dishQ, dishP] (by decide)⟩

theorem validateDishName_eq (name : Str) (dishes : List Dish) (editingId : Option Str) :
    validateDishName name dishes editingId =
      if jsTrim name = [] then some nameRequiredError
      else
        match dishes.find?
          (fun dish => decide (jsToLower dish.name = jsToLower (jsTrim name)) &&
            decide (some dish.id ≠ editingId)) with
        | some _ => some nameExistsError
        | none => none := rfl

theorem find?_congr_mem {α : Type} (p q : α → Bool) (l : List α)
    (h : ∀ a ∈ l, p a = q a) : l.find? p = l.find? q := by
  induction l with
  | nil => rfl
  | cons a l ih =>
    rw [List.find?_cons, List.find?_cons, h a (List.mem_cons_self a l)]
    cases q a with
    | true => rfl
    | false => exact ih (fun b hb => h b (List.mem_cons.mpr (Or.inr hb)))

/-- Claim C8: every name that is empty or all whitespace (tabs and newlines
included) yields the required-name error, whatever the dish collection and
editingId. -/
theorem claim_C8_blank_name_required (name : Str) (dishes : List Dish)
    (editingId : Option Str) (h : ∀ ch ∈ name, ch.isWhitespace) :
    validateDishName name dishes editingId = some nameRequiredError := by
  have h1 : name.dropWhile Char.isWhitespace = [] :=
    List.dropWhile_eq_nil_iff.mpr h
  have h2 : jsTrim name = [] := by simp [jsTrim, h1]
  rw [validateDishName_eq, if_pos h2]

/-- Witness for claim C8 at the all-whitespace name built from a space, a
tab and a newline. -/
theorem claim_C8_witness :
    (∀ ch ∈ (" \t\n".toList : Str), ch.isWhitespace) ∧
      validateDishName " \t\n".toList [dishP] (some "7".toList) = some nameRequiredError :=
  ⟨by decide, claim_C8_blank_name_required _ [dishP] (some "7".toList) (by decide)⟩

/-- A stored dish whose name carries surrounding whitespace. -/
def dishSpacedPasta : Dish :=
  { id := "9".toList, name := " pasta ".toList
    ingredients := { fruitShop := [], butchery := [], supermarket := ["Rice".toList] }
    createdAt := [] }

/-- Counterexample to claim C2 as stated: the stored name " pasta " has a
trimmed lowercased form equal to the trimmed candidate "pasta" and an id
different from the absent editingId, so the claim demands the duplicate
error, yet validateDishName returns null — the code lowercases stored names
but does not trim them. -/
theorem claim_C2_counterexample :
    jsTrim "pasta".toList ≠ [] ∧
    (∃ d ∈ [dishSpacedPasta],
      jsToLower (jsTrim d.name) = jsToLower (jsTrim "pasta".toList) ∧
        some d.id ≠ (none : Option Str)) ∧
    validateDishName "pasta".toList [dishSpacedPasta] none = none := by
  decide

/-- Claim C2 (amended): for a candidate whose trimmed form is non-empty,
validateDishName returns the duplicate error exactly when some dish's name,
lowercased but NOT trimmed, equals the lowercased trimmed candidate and the
dish's id differs from editingId, and returns null otherwise; trimming is
applied to the candidate only. -/
theorem claim_C2_amended_duplicate_detection (name : Str) (dishes : List Dish)
    (editingId : Option Str) (h : jsTrim name ≠ []) :
    (validateDishName name dishes editingId = some nameExistsError ↔
      ∃ d ∈ dishes, jsToLower d.name = jsToLower (jsTrim name) ∧ some d.id ≠ editingId) ∧
    (validateDishName name dishes editingId = none ↔
      ∀ d ∈ dishes, jsToLower d.name = jsToLower (jsTrim name) → some d.id = editingId) := by
  rw [validateDishName_eq, if_neg h]
  cases hf : dishes.find?
      (fun dish => decide (jsToLower dish.name = jsToLower (jsTrim name)) &&
        decide (some dish.id ≠ editingId)) with
  | some d =>
    have hd := List.find?_some hf
    have hmem := List.mem_of_find?_eq_some hf
    rw [Bool.and_eq_true, decide_eq_true_iff, decide_eq_true_iff] at hd
    constructor
    · exact iff_of_true rfl ⟨d, hmem, hd.1, hd.2⟩
    · exact iff_of_false (Option.some_ne_none _) (fun hall => hd.2 (hall d hmem hd.1))
  | none =>
    have hall := List.find?_eq_none.mp hf
    constructor
    · apply iff_of_false (fun hco => Option.noConfusion hco)
      rintro ⟨d, hmem, h1, h2⟩
      exact hall d hmem
        (by rw [Bool.and_eq_true, decide_eq_true_iff, decide_eq_true_iff]; exact ⟨h1, h2⟩)
    · apply iff_of_true rfl
      intro d hmem h1
      by_contra h2
      exact hall d hmem
        (by rw [Bool.and_eq_true, decide_eq_true_iff, decide_eq_true_iff]; exact ⟨h1, h2⟩)

/-- Witness for the amended claim C2 at a concrete duplicate: candidate
" PASTA " against a stored dish named "pasta". -/
theorem claim_C2_amended_witness :
    jsTrim " PASTA ".toList ≠ [] ∧
    (validateDishName " PASTA ".toList
        [⟨"3".toList, "pasta".toList, ⟨[], [], []⟩, []⟩] none = some nameExistsError ↔
      ∃ d ∈ [(⟨"3".toList, "pasta".toList, ⟨[], [], []⟩, []⟩ : Dish)],
        jsToLower d.name = jsToLower (jsTrim " PASTA ".toList) ∧
          some d.id ≠ (none : Option Str)) :=
  ⟨by decide,
    (claim_C2_amended_duplicate_detection " PASTA ".toList
      [⟨"3".toList, "pasta".toList, ⟨[], [], []⟩, []⟩] none (by decide)).1⟩

/-- Claim C9: an editingId matching no dish id grants no exemption —
validateDishName coincides with the call without editingId. -/
theorem claim_C9_unmatched_editing_id (name : Str) (dishes : List Dish)
    (editingId : Option Str) (h : ∀ d ∈ dishes, some d.id ≠ editingId) :
    validateDishName name dishes editingId = validateDishName name dishes none := by
  rw [validateDishName_eq, validateDishName_eq]
  by_cases ht : jsTrim name = []
  · rw [if_pos ht, if_pos ht]
  · rw [if_neg ht, if_neg ht]
    have hcong := find?_congr_mem
      (fun dish => decide (jsToLower dish.name = jsToLower (jsTrim name)) &&
        decide (some dish.id ≠ editingId))
      (fun dish => decide (jsToLower dish.name = jsToLower (jsTrim name)) &&
        decide (some dish.id ≠ (none : Option Str)))
      dishes
      (fun d hd => by simp [h d hd])
    rw [hcong]

/-- Witness for claim C9: editingId "7" matches no id in the collection and
the result agrees with the editingId-free call. -/
theorem claim_C9_witness :
    (∀ d ∈ [dishP], some d.id ≠ some ("7".toList : Str)) ∧
      validateDishName "Stew".toList [dishP] (some "7".toList) =
        validateDishName "Stew".toList [dishP] none :=
  ⟨by decide,
    claim_C9_unmatched_editing_id "Stew".toList [dishP] (some "7".toList) (by decide)⟩

theorem validateIngredients_eq (ingredients : Ingredients) :
    validateIngredients ingredients =
      if !(CATEGORIES.any
          (fun c => (ingredients.get c).any (fun ing => decide (jsTrim ing ≠ [])))) then
        some ingredientsRequiredError
      else none := rfl

theorem hasAnyIngredient_iff (ingredients : Ingredients) :
    (CATEGORIES.any
        (fun c => (ingredients.get c).any (fun ing => decide (jsTrim ing ≠ []))) = true) ↔
      ∃ c : CategoryName, ∃ i ∈ ingredients.get c, jsTrim i ≠ [] := by
  rw [List.any_eq_true]
  constructor
  · rintro ⟨c, _, hcb⟩
    obtain ⟨i, hi, hib⟩ := List.any_eq_true.mp hcb
    exact ⟨c, i, hi, of_decide_eq_true hib⟩
  · rintro ⟨c, i, hi, hib⟩
    refine ⟨c, ?_, List.any_eq_true.mpr ⟨i, hi, decide_eq_true hib⟩⟩
    cases c <;> simp [CATEGORIES]

/-- Claim C6: validateIngredients returns the required-ingredient error iff
every entry of every category is blank after trimming, and null iff some
category holds an entry with non-empty trimmed value. -/
theorem claim_C6_ingredients_required_iff (ingredients : Ingredients) :
    (validateIngredients ingredients = some ingredientsRequiredError ↔
      ∀ c : CategoryName, ∀ i ∈ ingredients.get c, jsTrim i = []) ∧
    (validateIngredients ingredients = none ↔
      ∃ c : CategoryName, ∃ i ∈ ingredients.get c, jsTrim i ≠ []) := by
  rw [validateIngredients_eq]
  cases hb : CATEGORIES.any
      (fun c => (ingredients.get c).any (fun ing => decide (jsTrim ing ≠ []))) with
  | true =>
    obtain ⟨c, i, hi, hib⟩ := (hasAnyIngredient_iff ingredients).mp hb
    constructor
    · exact iff_of_false (by simp) (fun hall => hib (hall c i hi))
    · exact iff_of_true (by simp) ⟨c, i, hi, hib⟩
  | false =>
    constructor
    · apply iff_of_true (by simp)
      intro c i hi
      by_contra hne
      have := (hasAnyIngredient_iff ingredients).mpr ⟨c, i, hi, hne⟩
      rw [hb] at this
      exact Bool.noConfusion this
    · apply iff_of_false (by simp)
      intro hex
      have := (hasAnyIngredient_iff ingredients).mpr hex
      rw [hb] at this
      exact Bool.noConfusion this

/-- Claim C7: validateDish returns the non-null validator results in order,
name error first, the empty sequence exactly when both validators pass, and
is total — failures are data, never exceptions. -/
theorem claim_C7_validate_dish_composition (name : Str) (ingredients : Ingredients)
    (dishes : List Dish) (editingId : Option Str) :
    validateDish name ingredients dishes editingId =
      (validateDishName name dishes editingId).toList ++
        (validateIngredients ingredients).toList ∧
    (validateDish name ingredients dishes editingId = [] ↔
      validateDishName name dishes editingId = none ∧
      validateIngredients ingredients = none) := by
  constructor
  · unfold validateDish
    cases validateDishName name dishes editingId <;>
      cases validateIngredients ingredients <;> rfl
  · unfold validateDish
    cases validateDishName name dishes editingId <;>
      cases validateIngredients ingredients <;> simp

/-- Claim C3: the clipboard text is the registry-ordered non-empty category
blocks — category name, colon, newline, then one "  - display" line per
entry joined by newlines — joined by exactly one blank line, with empty
categories contributing neither block nor separator, and the all-empty list
formatting to the empty string. -/
theorem claim_C3_format_clipboard (list : ConsolidatedList) :
    formatConsolidatedListForClipboard list =
      joinSep ['\n', '\n']
        ((CATEGORIES.filter (fun c => decide (list.get c ≠ []))).map
          (fun c => categoryLabel c ++ (':' :: '\n' ::
            joinSep ['\n']
              ((list.get c).map (fun ing => ' ' :: ' ' :: '-' :: ' ' :: ing.display))))) ∧
    formatConsolidatedListForClipboard
      { fruitShop := [], butchery := [], supermarket := [] } = [] := by
  constructor
  · cases h1 : list.fruitShop <;> cases h2 : list.butchery <;> cases h3 : list.supermarket <;>
      simp [formatConsolidatedListForClipboard, CATEGORIES, ConsolidatedList.get,
        List.filter_cons, h1, h2, h3, joinSep]
  · rfl
